import Mathlib

/-!
# home-bot: the command pipeline of `main.go`

A shallow embedding of the three loops of `main.go` (the ingest loop of `main`,
`handleBotCommands` and `handleBotReply`) together with the library functions
they call (`strings.Fields`, `strings.HasPrefix`, `strings.Join`,
`strconv.Atoi`, `fmt.Sprintf`).

Conventions.
* A Go `string` is a Lean `String` (a sequence of Unicode code points); message
  texts arrive JSON-decoded and are valid UTF-8.
* Go `int` is 64 bits wide; `strconv.Atoi` is modelled with that range.
* Pointers that may be `nil` (`*slack.Channel`, `*slack.Attachment`) are `Option`s.
* Everything outside the process (the Slack API, the shopping-list actions, the
  iteration order of a Go map) is an operation on an abstract world state `σ`.
* Writes to the log and to standard output are not modelled.
-/

namespace HomeBot

/-! ## Library functions -/

/-- Go `unicode.IsSpace`: the Latin-1 cases spelled out by the library, then the
`White_Space` ranges above Latin-1. -/
def IsSpace (c : Char) : Bool :=
  let r := c.toNat
  (9 ≤ r && r ≤ 13) || r = 32 || r = 133 || r = 160 ||
  r = 5760 || (8192 ≤ r && r ≤ 8202) || r = 8232 || r = 8233 ||
  r = 8239 || r = 8287 || r = 12288

/-- Scanner behind `strings.Fields`: `cur` holds the characters of the field being
read, latest first. -/
def fieldsAux : List Char → List Char → List (List Char)
  | [], cur => if cur.isEmpty then [] else [cur.reverse]
  | c :: cs, cur =>
    if IsSpace c then
      if cur.isEmpty then fieldsAux cs [] else cur.reverse :: fieldsAux cs []
    else fieldsAux cs (c :: cur)

/-- Go `strings.Fields`: splits around each run of white space; no empty fields. -/
def Fields (s : String) : List String :=
  (fieldsAux s.data []).map String.mk

/-- Go `strings.HasPrefix`. -/
def HasPrefix (s pre : String) : Bool :=
  pre.data.isPrefixOf s.data

/-- Go `strings.Join`. -/
def Join (elems : List String) (sep : String) : String :=
  sep.intercalate elems

/-- The two sentinel errors of `strconv`. -/
inductive ConvErr where
  | ErrSyntax
  | ErrRange
  deriving DecidableEq, Repr

/-- Go `strconv.NumError`. -/
structure NumError where
  Func : String
  Num : String
  Err : ConvErr
  deriving DecidableEq, Repr

/-- Outcome of reading a run of decimal digits from left to right, as
`strconv.ParseUint` does: the value, the first character that is not a digit, or
the first digit at which the value no longer fits 64 bits. -/
inductive Digits where
  | value (n : Nat)
  | badDigit
  | overflow
  deriving DecidableEq, Repr

/-- The digit loop of `strconv.ParseUint` for base 10 and 64 bits; it stops at the
first bad character or overflow, whichever comes first. -/
def parseDigits : List Char → Nat → Digits
  | [], n => .value n
  | c :: cs, n =>
    if 48 ≤ c.toNat && c.toNat ≤ 57 then
      if n * 10 + (c.toNat - 48) < 2 ^ 64 then parseDigits cs (n * 10 + (c.toNat - 48))
      else .overflow
    else .badDigit

/-- Go `strconv.Atoi` for a 64-bit `int`, returning the pair `(value, err)`: an
optional sign, then at least one decimal digit, the value within `[-2^63, 2^63)`.
A syntax error returns `0`, a range error the nearest bound. -/
def Atoi (s : String) : Int × Option NumError :=
  let synErr : Int × Option NumError := (0, some ⟨"Atoi", s, .ErrSyntax⟩)
  match s.data with
  | [] => synErr
  | c :: cs =>
    let digits := if c = '-' ∨ c = '+' then cs else c :: cs
    let rngErr : Int × Option NumError :=
      if c = '-' then (-(2 ^ 63 : Int), some ⟨"Atoi", s, .ErrRange⟩)
      else ((2 ^ 63 - 1 : Int), some ⟨"Atoi", s, .ErrRange⟩)
    if digits.isEmpty then synErr
    else
      match parseDigits digits 0 with
      | .badDigit => synErr
      | .overflow => rngErr
      | .value n =>
        if c = '-' then (if n ≤ 2 ^ 63 then (-(n : Int), none) else rngErr)
        else (if n < 2 ^ 63 then ((n : Int), none) else rngErr)

/-- Go `(*NumError).Error`; `quote` stands for `strconv.Quote`. -/
def NumError.Error (quote : String → String) (e : NumError) : String :=
  "strconv." ++ e.Func ++ ": " ++ "parsing " ++ quote e.Num ++ ": " ++
    (match e.Err with
     | .ErrSyntax => "invalid syntax"
     | .ErrRange => "value out of range")

/-- Go `fmt.Sprintf(format, err)` for a `format` without verbs and one operand of
type `error`: the operand is surplus, and `fmt` appends it as `%!(EXTRA ...)`, a
nil operand as `<nil>` and any other as its dynamic type, `=`, and its `Error()`. -/
def SprintfExtra (quote : String → String) (format : String) (err : Option NumError) : String :=
  format ++ "%!(EXTRA " ++
    (match err with
     | none => "<nil>"
     | some e => "*strconv.NumError=" ++ e.Error quote) ++ ")"

/-! ## Data model -/

/-- The part of `slack.Channel` the program reads. -/
structure Channel where
  ID : String
  Name : String
  deriving DecidableEq, Repr

/-- The part of `slack.MessageEvent` the program reads (`Type_` is the field `Type`). -/
structure MessageEvent where
  Type_ : String
  Channel : String
  User : String
  Text : String
  deriving DecidableEq, Repr

/-- Go `slack.AttachmentField`. -/
structure AttachmentField where
  Title : String
  Value : String
  Short : Bool
  deriving DecidableEq, Repr

/-- The part of `slack.Attachment` the program writes; `Fields` is `nil` when empty. -/
structure Attachment where
  Color : String
  Pretext : String
  Fields : List AttachmentField
  deriving DecidableEq, Repr

/-- Go `models.Item`. -/
structure Item where
  Quantity : Int
  Name : String
  deriving DecidableEq, Repr

/-- Go `BotCentral`: what the ingest loop hands to the router. -/
structure BotCentral where
  Channel : Option Channel
  Event : MessageEvent
  UserId : String
  deriving DecidableEq, Repr

/-- Go `AttachmentChannel`: what the router hands to the publisher. -/
structure AttachmentChannel where
  Channel : Option Channel
  Attachment : Option Attachment
  DisplayTitle : String
  deriving DecidableEq, Repr

/-- The zero value of `AttachmentChannel`, as left by `var attachmentChannel`. -/
def AttachmentChannel.zero : AttachmentChannel :=
  ⟨none, none, ""⟩

/-- Go `slack.PostMessageParameters` as filled in by `handleBotReply`. -/
structure PostMessageParameters where
  AsUser : Bool
  Attachments : List Attachment
  deriving DecidableEq, Repr

/-- The map literal `commands` of `handleBotCommands`. -/
def commands : List (String × String) :=
  [("list", "See the current shopping list"),
   ("help", "See the available bot commands.")]

/-- The collaborators of the program, as operations on the state `σ` of the outside
world. `rangeCommands` yields the order in which `range commands` visits the map,
which Go leaves unspecified; `Quote` is `strconv.Quote`. A `none` from
`GetChannelInfo` is a non-nil `err`; `PostMessage` returns whether `err` is nil. -/
structure External (σ : Type) where
  RetrieveLatestShoppingList : σ → Option Attachment × σ
  CompleteList : σ → Option Attachment × σ
  AppendToShoppingList : Item → σ → Option Attachment × σ
  GetChannelInfo : String → σ → Option Channel × σ
  PostMessage : String → String → PostMessageParameters → σ → Bool × σ
  rangeCommands : σ → List (String × String) × σ
  range_perm : ∀ w, (rangeCommands w).1.Perm commands
  Quote : String → String

/-- A call to one of the shopping-list actions. -/
inductive Call where
  | RetrieveLatestShoppingList
  | CompleteList
  | AppendToShoppingList (item : Item)
  deriving DecidableEq, Repr

/-- Outcome of a piece of Go code that indexes a slice: a value, or the run-time
panic `index out of range [idx] with length len`, which ends the process. -/
inductive Result (α : Type) where
  | ok (a : α)
  | panic (idx len : Nat)
  deriving DecidableEq, Repr

/-! ## The router: `handleBotCommands` -/

/-- What one iteration of the loop of `handleBotCommands` leaves behind: the
variable `attachmentChannel`, the value sent on `c` (if any), the calls made to
the shopping-list actions, and the world. -/
structure Handled (σ : Type) where
  attachmentChannel : AttachmentChannel
  sent : Option AttachmentChannel
  calls : List Call
  world : σ
  deriving DecidableEq, Repr

/-- One iteration of the loop of `handleBotCommands`, for the received `botChannel`. -/
def handleBotCommand {σ : Type} (X : External σ) (attachmentChannel : AttachmentChannel)
    (botChannel : BotCentral) (w : σ) : Result (Handled σ) :=
  let ac0 : AttachmentChannel := { attachmentChannel with Channel := botChannel.Channel }
  let commandArray := Fields botChannel.Event.Text
  match commandArray[1]? with
  | none => .panic 1 commandArray.length
  | some name =>
    if name = "help" then
      let ac1 : AttachmentChannel := { ac0 with DisplayTitle := "Fortune & Karam with Luck" }
      let r := X.rangeCommands w
      let fields := r.1.map fun kv => AttachmentField.mk ("<bot> " ++ kv.1) kv.2 false
      let attachment : Attachment :=
        { Pretext := "Bot Command List", Color := "#B733FF", Fields := fields }
      let ac2 : AttachmentChannel := { ac1 with Attachment := some attachment }
      .ok ⟨ac2, some ac2, [], r.2⟩
    else if name = "list" then
      let r := X.RetrieveLatestShoppingList w
      let ac1 : AttachmentChannel := { ac0 with Attachment := r.1 }
      .ok ⟨ac1, some ac1, [.RetrieveLatestShoppingList], r.2⟩
    else if name = "complete" then
      let r := X.CompleteList w
      let ac1 : AttachmentChannel := { ac0 with Attachment := r.1 }
      .ok ⟨ac1, some ac1, [.CompleteList], r.2⟩
    else if name = "add" then
      match commandArray[2]? with
      | none => .panic 2 commandArray.length
      | some arg =>
        let qe := Atoi arg
        if commandArray.length < 4 ∨ qe.2 ≠ none then
          let attachment : Attachment :=
            { Pretext := SprintfExtra X.Quote "Invalid command" qe.2,
              Color := "#B733FF", Fields := [] }
          let ac1 : AttachmentChannel := { ac0 with Attachment := some attachment }
          .ok ⟨ac1, some ac1, [], w⟩
        else
          let item : Item := { Quantity := qe.1, Name := Join (commandArray.drop 3) " " }
          let r := X.AppendToShoppingList item w
          let ac1 : AttachmentChannel := { ac0 with Attachment := r.1 }
          .ok ⟨ac1, some ac1, [.AppendToShoppingList item], r.2⟩
    else .ok ⟨ac0, none, [], w⟩

/-- What the router has done after a sequence of received commands: the values
sent on `c` in order, the calls to the actions in order, and how it stands
(`ok` with the loop variable and the world, or the panic that ended the process). -/
structure RouterRun (σ : Type) where
  sent : List AttachmentChannel
  calls : List Call
  final : Result (AttachmentChannel × σ)
  deriving DecidableEq, Repr

/-- The loop of `handleBotCommands` over the commands it receives, in order. -/
def handleBotCommands {σ : Type} (X : External σ) :
    List BotCentral → AttachmentChannel → σ → RouterRun σ
  | [], ac, w => ⟨[], [], .ok (ac, w)⟩
  | bc :: rest, ac, w =>
    match handleBotCommand X ac bc w with
    | .panic i n => ⟨[], [], .panic i n⟩
    | .ok h =>
      let r := handleBotCommands X rest h.attachmentChannel h.world
      ⟨h.sent.toList ++ r.sent, h.calls ++ r.calls, r.final⟩

/-! ## The publisher: `handleBotReply` -/

/-- How the process ends: `main` returns after `break Loop`, `log.Fatal` or
`log.Fatalln` exits, or a goroutine panics. -/
inductive Halt where
  | mainReturned
  | fatal
  | indexOutOfRange (idx len : Nat)
  | nilDereference
  deriving DecidableEq, Repr

/-- A call to `api.PostMessage`: channel name, text and parameters. -/
structure PostCall where
  channel : String
  text : String
  params : PostMessageParameters
  deriving DecidableEq, Repr

/-- What one iteration of the loop of `handleBotReply` does: the call made to
`api.PostMessage` (if it got that far), how the process ends (if it does), and
the world. -/
structure Replied (σ : Type) where
  post : Option PostCall
  halt : Option Halt
  world : σ
  deriving DecidableEq, Repr

/-- One iteration of the loop of `handleBotReply`, for the received `ac`. -/
def handleBotReply {σ : Type} (X : External σ) (ac : AttachmentChannel) (w : σ) : Replied σ :=
  match ac.Attachment with
  | none => ⟨none, some .nilDereference, w⟩
  | some attachment =>
    let params : PostMessageParameters := { AsUser := true, Attachments := [attachment] }
    match ac.Channel with
    | none => ⟨none, some .nilDereference, w⟩
    | some channel =>
      let r := X.PostMessage channel.Name ac.DisplayTitle params w
      ⟨some ⟨channel.Name, ac.DisplayTitle, params⟩,
        if r.1 then none else some .fatal, r.2⟩

/-! ## The ingest loop of `main` -/

/-- The event types `main` switches on; `other` is the `default` case. -/
inductive InboundEvent where
  | ConnectedEvent (userID : String)
  | TeamJoinEvent
  | MessageEvent (ev : MessageEvent)
  | ReactionRemovedEvent
  | RTMError (error : String)
  | InvalidAuthEvent
  | other
  deriving DecidableEq, Repr

/-- How an iteration of the loop of `main` ends: it goes round again, leaves by
`break Loop`, or exits through `log.Fatalln`. -/
inductive Flow where
  | next
  | stop
  | fatal
  deriving DecidableEq, Repr

/-- What one iteration of the loop of `main` leaves behind: the variable `botId`,
the value sent on `botCommandChannel` (if any), how the iteration ends, and the
world. -/
structure Ingested (σ : Type) where
  botId : String
  forwarded : Option BotCentral
  flow : Flow
  world : σ
  deriving DecidableEq, Repr

/-- One iteration of the loop of `main`, for the received event. -/
def mainLoopBody {σ : Type} (X : External σ) (botId : String) (event : InboundEvent) (w : σ) :
    Ingested σ :=
  match event with
  | .ConnectedEvent userID => ⟨userID, none, .next, w⟩
  | .TeamJoinEvent => ⟨botId, none, .next, w⟩
  | .MessageEvent ev =>
    let r := X.GetChannelInfo ev.Channel w
    match r.1 with
    | none => ⟨botId, none, .fatal, r.2⟩
    | some channelInfo =>
      let botCentral : BotCentral := { Channel := some channelInfo, Event := ev, UserId := ev.User }
      if ev.Type_ = "message" ∧ HasPrefix ev.Text ("<@" ++ botId ++ ">") = true then
        ⟨botId, some botCentral, .next, r.2⟩
      else ⟨botId, none, .next, r.2⟩
  | .ReactionRemovedEvent => ⟨botId, none, .next, w⟩
  | .RTMError _ => ⟨botId, none, .next, w⟩
  | .InvalidAuthEvent => ⟨botId, none, .stop, w⟩
  | .other => ⟨botId, none, .next, w⟩

/-- What the loop of `main` has done after a sequence of events: the values sent on
`botCommandChannel` in order, the variable `botId`, how it stands, and the world. -/
structure IngestRun (σ : Type) where
  forwarded : List BotCentral
  botId : String
  flow : Flow
  world : σ
  deriving DecidableEq, Repr

/-- The loop of `main` over the events it receives, in order. -/
def mainLoop {σ : Type} (X : External σ) : List InboundEvent → String → σ → IngestRun σ
  | [], botId, w => ⟨[], botId, .next, w⟩
  | event :: rest, botId, w =>
    let r := mainLoopBody X botId event w
    match r.flow with
    | .next =>
      let t := mainLoop X rest r.botId r.world
      ⟨r.forwarded.toList ++ t.forwarded, t.botId, t.flow, t.world⟩
    | .stop => ⟨r.forwarded.toList, r.botId, .stop, r.world⟩
    | .fatal => ⟨r.forwarded.toList, r.botId, .fatal, r.world⟩

/-! ## The three goroutines together

`main`, `handleBotCommands` and `handleBotReply` run concurrently and meet on the
two channels, both made without a buffer: a send completes only together with
the matching receive. The state below records where each goroutine stands; a
step lets one goroutine advance. A command carries the position of its event in
the event stream, so that a post can be traced to its event. -/

/-- Where `main` stands: at the receive from `rtm.IncomingEvents`, or at the send
on `botCommandChannel`. -/
inductive MainPC where
  | reading
  | sending (i : Nat) (botCentral : BotCentral)
  deriving DecidableEq, Repr

/-- Where `handleBotCommands` stands: at the receive from `botCommandChannel`, in
the body of the loop, or at a send on `c`. -/
inductive RouterPC where
  | receiving
  | handling (i : Nat) (botChannel : BotCentral)
  | sending (i : Nat) (attachmentChannel : AttachmentChannel)
  deriving DecidableEq, Repr

/-- Where `handleBotReply` stands: at the receive from `botReplyChannel`, or in the
body of the loop. -/
inductive PublisherPC where
  | receiving
  | posting (i : Nat) (ac : AttachmentChannel)
  deriving DecidableEq, Repr

/-- The goroutines. -/
inductive Goroutine where
  | main
  | router
  | publisher
  deriving DecidableEq, Repr

/-- State of the process. `events` is what `rtm.IncomingEvents` still holds and
`seen` the number of events already received. `classified` lists the commands
`main` has brought to `botCommandChannel` and `posts` the calls made to
`api.PostMessage`, each with the position of its event; `halted` tells whether
and how the process has ended. -/
structure Sys (σ : Type) where
  events : List InboundEvent
  seen : Nat
  botId : String
  main : MainPC
  attachmentChannel : AttachmentChannel
  router : RouterPC
  publisher : PublisherPC
  world : σ
  classified : List (Nat × BotCentral)
  posts : List (Nat × PostCall)
  halted : Option Halt
  deriving DecidableEq, Repr

/-- The process at start: `botId` is empty, `attachmentChannel` is the zero value
and every goroutine waits at its receive. -/
def Sys.init {σ : Type} (events : List InboundEvent) (w : σ) : Sys σ :=
  { events := events, seen := 0, botId := "", main := .reading,
    attachmentChannel := .zero, router := .receiving, publisher := .receiving,
    world := w, classified := [], posts := [], halted := none }

/-- A step of `main`: receive the next event and run the loop body up to the send,
or complete the send when `handleBotCommands` is at its receive. -/
def stepMain {σ : Type} (X : External σ) (s : Sys σ) : Sys σ :=
  match s.main with
  | .reading =>
    match s.events with
    | [] => s
    | event :: rest =>
      let r := mainLoopBody X s.botId event s.world
      let s1 : Sys σ :=
        { s with events := rest, seen := s.seen + 1, botId := r.botId, world := r.world }
      match r.flow with
      | .next =>
        match r.forwarded with
        | none => s1
        | some botCentral =>
          { s1 with main := .sending s.seen botCentral,
                    classified := s.classified ++ [(s.seen, botCentral)] }
      | .stop => { s1 with halted := some .mainReturned }
      | .fatal => { s1 with halted := some .fatal }
  | .sending i botCentral =>
    match s.router with
    | .receiving => { s with main := .reading, router := .handling i botCentral }
    | _ => s

/-- A step of `handleBotCommands`: run the loop body up to the send, or complete
the send when `handleBotReply` is at its receive. -/
def stepRouter {σ : Type} (X : External σ) (s : Sys σ) : Sys σ :=
  match s.router with
  | .receiving => s
  | .handling i botChannel =>
    match handleBotCommand X s.attachmentChannel botChannel s.world with
    | .panic idx len => { s with halted := some (.indexOutOfRange idx len) }
    | .ok h =>
      { s with attachmentChannel := h.attachmentChannel, world := h.world,
               router := match h.sent with
                 | none => .receiving
                 | some ac => .sending i ac }
  | .sending i ac =>
    match s.publisher with
    | .receiving => { s with router := .receiving, publisher := .posting i ac }
    | _ => s

/-- A step of `handleBotReply`: run the loop body. -/
def stepPublisher {σ : Type} (X : External σ) (s : Sys σ) : Sys σ :=
  match s.publisher with
  | .receiving => s
  | .posting i ac =>
    let r := handleBotReply X ac s.world
    { s with publisher := .receiving, world := r.world,
             posts := s.posts ++ (r.post.map fun p => (i, p)).toList,
             halted := r.halt }

/-- One step of the process: the chosen goroutine advances if it can; nothing moves
once the process has ended. -/
def step {σ : Type} (X : External σ) (s : Sys σ) (g : Goroutine) : Sys σ :=
  if s.halted.isSome then s
  else
    match g with
    | .main => stepMain X s
    | .router => stepRouter X s
    | .publisher => stepPublisher X s

/-- The process after the goroutines have been scheduled in the given order. -/
def run {σ : Type} (X : External σ) (schedule : List Goroutine) (s : Sys σ) : Sys σ :=
  schedule.foldl (step X) s

/-- The command names `handleBotCommands` has a case for. -/
def handledNames : List String :=
  ["help", "list", "complete", "add"]

/-- Whether the command has a token at position 1 that names a case of the switch. -/
def isHandled (botChannel : BotCentral) : Bool :=
  match (Fields botChannel.Event.Text)[1]? with
  | none => false
  | some name => handledNames.contains name

/-- Event positions of the commands in flight between classification and posting,
oldest first: the one being posted, the reply waiting on `c`, the command in the
loop body of the router, and the command waiting on `botCommandChannel`; a
command that no case of the switch handles does not count. -/
def inFlight {σ : Type} (s : Sys σ) : List Nat :=
  (match s.publisher with
   | .receiving => []
   | .posting i _ => [i]) ++
  (match s.router with
   | .receiving => []
   | .handling i bc => if isHandled bc then [i] else []
   | .sending i _ => [i]) ++
  (match s.main with
   | .reading => []
   | .sending i bc => if isHandled bc then [i] else [])

/-- Event positions of the classified commands that a case of the switch handles. -/
def validClassified {σ : Type} (s : Sys σ) : List Nat :=
  (s.classified.filter fun p => isHandled p.2).map Prod.fst

/-- Nothing is left to do: the event stream is empty and every goroutine waits at
its receive. -/
def quiescent {σ : Type} (s : Sys σ) : Bool :=
  s.events.isEmpty && s.main = .reading && s.router = .receiving &&
    s.publisher = .receiving

/-- The pipeline keeps the order: the handled commands classified so far are, by
event position, those already posted followed by others, and as long as the
process runs those others are the commands in flight. -/
def PipelineInv {σ : Type} (s : Sys σ) : Prop :=
  ∃ tail, validClassified s = s.posts.map Prod.fst ++ tail ∧
    (s.halted = none → tail = inFlight s)

/-- The classified commands are the message events at their positions of the event
stream `events`, in increasing position, all among the events already received. -/
def PositionInv {σ : Type} (events : List InboundEvent) (s : Sys σ) : Prop :=
  (s.classified.map Prod.fst).Pairwise (· < ·) ∧
  (∀ i ∈ s.classified.map Prod.fst, i < s.seen) ∧
  (∃ consumed, events = consumed ++ s.events ∧ consumed.length = s.seen) ∧
  (∀ p ∈ s.classified, events[p.1]? = some (.MessageEvent p.2.Event))

/-- Every command and reply in flight, and every post, stems from a classified
command: a reply carries the channel of its command, and a post goes to that
channel by name, as the bot user. -/
def OriginInv {σ : Type} (s : Sys σ) : Prop :=
  (∀ i bc, s.main = .sending i bc → (i, bc) ∈ s.classified) ∧
  (∀ i bc, s.router = .handling i bc → (i, bc) ∈ s.classified) ∧
  (∀ i ac, s.router = .sending i ac →
    ∃ bc, (i, bc) ∈ s.classified ∧ ac.Channel = bc.Channel) ∧
  (∀ i ac, s.publisher = .posting i ac →
    ∃ bc, (i, bc) ∈ s.classified ∧ ac.Channel = bc.Channel) ∧
  (∀ p ∈ s.posts, ∃ bc ch, (p.1, bc) ∈ s.classified ∧ bc.Channel = some ch ∧
    p.2.channel = ch.Name ∧ p.2.params.AsUser = true)

/-- Work left in the process: the events not yet received and the stages each
command in flight has still to pass. No step that moves the process raises it. -/
def work {σ : Type} (s : Sys σ) : Nat :=
  5 * s.events.length +
  (match s.main with
   | .reading => 0
   | .sending _ _ => 4) +
  (match s.router with
   | .receiving => 0
   | .handling _ _ => 3
   | .sending _ _ => 2) +
  (match s.publisher with
   | .receiving => 0
   | .posting _ _ => 1)

/-- A world without state: the list and complete actions answer with fixed bodies,
appending answers with a body naming the item, the map is visited in source order,
every channel exists and every post succeeds. -/
def demoExternal : External Unit where
  RetrieveLatestShoppingList := fun w => (some ⟨"#00FF00", "Shopping list", []⟩, w)
  CompleteList := fun w => (some ⟨"#00FF00", "Completed", []⟩, w)
  AppendToShoppingList := fun item w => (some ⟨"#00FF00", "Added " ++ item.Name, []⟩, w)
  GetChannelInfo := fun id w => (some ⟨id, "general"⟩, w)
  PostMessage := fun _ _ _ w => (true, w)
  rangeCommands := fun w => (commands, w)
  range_perm := fun _ => List.Perm.refl _
  Quote := fun s => "\"" ++ s ++ "\""

/-- A message event with the given text, in channel `C1` from user `U9`. -/
def msg (text : String) : MessageEvent :=
  ⟨"message", "C1", "U9", text⟩

/-- The command the ingest loop builds for `msg text`. -/
def cmd (text : String) : BotCentral :=
  ⟨some ⟨"C1", "general"⟩, msg text, "U9"⟩

/-! ## Facts about the library functions -/

theorem hasPrefix_iff (s pre : String) :
    HasPrefix s pre = true ↔ ∃ rest : String, s = pre ++ rest := by
  unfold HasPrefix
  rw [List.isPrefixOf_iff_prefix]
  constructor
  · rintro ⟨t, ht⟩
    exact ⟨⟨t⟩, by apply String.ext; simp [ht]⟩
  · rintro ⟨rest, rfl⟩
    exact ⟨rest.data, by simp⟩

theorem fieldsAux_token (m : List Char) (hm : ∀ c ∈ m, IsSpace c = false) (rest : List Char)
    (hrest : rest = [] ∨ ∃ c cs, rest = c :: cs ∧ IsSpace c = true) :
    ∀ cur : List Char, (cur ≠ [] ∨ m ≠ []) →
      fieldsAux (m ++ rest) cur = (cur.reverse ++ m) :: fieldsAux rest [] := by
  induction m with
  | nil =>
    intro cur hne
    have hcur : cur ≠ [] := by simpa using hne
    rcases hrest with rfl | ⟨c, cs, rfl, hc⟩
    · simp [fieldsAux, hcur]
    · simp [fieldsAux, hc, hcur]
  | cons a m ih =>
    intro cur _
    have ha : IsSpace a = false := hm a (by simp)
    have hm2 : ∀ c ∈ m, IsSpace c = false := fun c hc => hm c (by simp [hc])
    have := ih hm2 (a :: cur) (Or.inl (by simp))
    simp [fieldsAux, ha, this]

theorem fieldsAux_head_length (l : List Char) :
    ∀ cur : List Char, cur ≠ [] →
      ∃ f fs, fieldsAux l cur = f :: fs ∧ cur.length ≤ f.length := by
  induction l with
  | nil =>
    intro cur hcur
    exact ⟨cur.reverse, [], by simp [fieldsAux, hcur], by simp⟩
  | cons a l ih =>
    intro cur hcur
    by_cases ha : IsSpace a = true
    · exact ⟨cur.reverse, fieldsAux l [], by simp [fieldsAux, ha, hcur], by simp⟩
    · obtain ⟨f, fs, hf, hlen⟩ := ih (a :: cur) (by simp)
      refine ⟨f, fs, by simp [fieldsAux, ha, hf], ?_⟩
      simp at hlen
      omega

/-! ## The router, command by command -/

/-- C3. A message with no token at position 1 does not get dropped: the router
indexes `commandArray[1]` out of range and panics, so the process ends and no
later command is handled. -/
theorem mention_only_panics {σ : Type} (X : External σ) (ac : AttachmentChannel)
    (bc : BotCentral) (w : σ) (h : (Fields bc.Event.Text).length < 2) :
    handleBotCommand X ac bc w = .panic 1 (Fields bc.Event.Text).length ∧
    ∀ rest, handleBotCommands X (bc :: rest) ac w =
      ⟨[], [], .panic 1 (Fields bc.Event.Text).length⟩ := by
  have h1 : (Fields bc.Event.Text)[1]? = none := by
    rw [List.getElem?_eq_none_iff]; omega
  have h2 : handleBotCommand X ac bc w = .panic 1 (Fields bc.Event.Text).length := by
    unfold handleBotCommand
    simp [h1]
  exact ⟨h2, fun rest => by simp [handleBotCommands, h2]⟩

/-- The bare mention `<@U1>` passes the prefix test for bot `U1`, makes the router
panic, and the `list` command behind it is never answered. -/
theorem mention_only_panics_witness :
    HasPrefix "<@U1>" ("<@" ++ "U1" ++ ">") = true ∧
    (Fields (cmd "<@U1>").Event.Text).length < 2 ∧
    handleBotCommand demoExternal .zero (cmd "<@U1>") () = .panic 1 1 ∧
    handleBotCommands demoExternal [cmd "<@U1>", cmd "<@U1> list"] .zero () =
      ⟨[], [], .panic 1 1⟩ :=
  ⟨by decide, by decide,
    (mention_only_panics demoExternal .zero (cmd "<@U1>") () (by decide)).1,
    (mention_only_panics demoExternal .zero (cmd "<@U1>") () (by decide)).2 _⟩

/-- C2. For `add` with at least two argument tokens whose first parses as `q`, the
router calls `AppendToShoppingList` once, with quantity `q` and the remaining
tokens joined by single spaces as the name, and sends one reply, to the channel
of the command, whose body is the result of that call. -/
theorem add_appends_once {σ : Type} (X : External σ) (ac : AttachmentChannel)
    (bc : BotCentral) (w : σ) (m a b : String) (rest : List String) (q : Int)
    (hf : Fields bc.Event.Text = m :: "add" :: a :: b :: rest)
    (hq : Atoi a = (q, none)) :
    ∃ h, handleBotCommand X ac bc w = .ok h ∧
      h.calls = [.AppendToShoppingList ⟨q, Join (b :: rest) " "⟩] ∧
      h.world = (X.AppendToShoppingList ⟨q, Join (b :: rest) " "⟩ w).2 ∧
      ∃ reply, h.sent = some reply ∧
        reply.Channel = bc.Channel ∧
        reply.Attachment = (X.AppendToShoppingList ⟨q, Join (b :: rest) " "⟩ w).1 := by
  have hlen : ¬ (rest.length + 1 + 1 + 1 + 1 < 4) := by omega
  unfold handleBotCommand
  simp [hf, hq, hlen]

/-- The message `<@BOT> add 3 milk bread` appends the item with quantity 3 and
name `milk bread`. -/
theorem add_appends_once_witness :
    ∃ h, handleBotCommand demoExternal .zero (cmd "<@BOT> add 3 milk bread") () = .ok h ∧
      h.calls = [.AppendToShoppingList ⟨3, "milk bread"⟩] ∧
      h.world = (demoExternal.AppendToShoppingList ⟨3, "milk bread"⟩ ()).2 ∧
      ∃ reply, h.sent = some reply ∧
        reply.Channel = (cmd "<@BOT> add 3 milk bread").Channel ∧
        reply.Attachment = (demoExternal.AppendToShoppingList ⟨3, "milk bread"⟩ ()).1 :=
  add_appends_once demoExternal .zero (cmd "<@BOT> add 3 milk bread") ()
    "<@BOT>" "3" "milk" ["bread"] 3 (by decide) (by decide)

/-- C6. A command whose token at position 1 is none of the handled names sends
nothing on the reply channel and calls no action; the router only records the
channel and goes on with the next command. -/
theorem unknown_command_dropped {σ : Type} (X : External σ) (ac : AttachmentChannel)
    (bc : BotCentral) (w : σ) (m name : String) (args : List String)
    (hf : Fields bc.Event.Text = m :: name :: args)
    (hname : name ∉ handledNames) :
    handleBotCommand X ac bc w =
      .ok ⟨{ ac with Channel := bc.Channel }, none, [], w⟩ ∧
    ∀ rest, handleBotCommands X (bc :: rest) ac w =
      handleBotCommands X rest { ac with Channel := bc.Channel } w := by
  simp only [handledNames, List.mem_cons, List.mem_singleton, List.not_mem_nil, or_false,
    not_or] at hname
  obtain ⟨h1, h2, h3, h4⟩ := hname
  have h : handleBotCommand X ac bc w =
      .ok ⟨{ ac with Channel := bc.Channel }, none, [], w⟩ := by
    unfold handleBotCommand
    simp [hf, h1, h2, h3, h4]
  refine ⟨h, fun rest => ?_⟩
  simp [handleBotCommands, h]

/-- The message `<@BOT> frobnicate` is dropped, and the `list` command behind it is
answered as if it had come alone. -/
theorem unknown_command_dropped_witness :
    handleBotCommand demoExternal .zero (cmd "<@BOT> frobnicate") () =
      .ok ⟨{ AttachmentChannel.zero with Channel := (cmd "<@BOT> frobnicate").Channel },
        none, [], ()⟩ ∧
    (handleBotCommands demoExternal [cmd "<@BOT> frobnicate", cmd "<@BOT> list"] .zero ()).sent =
      (handleBotCommands demoExternal [cmd "<@BOT> list"] .zero ()).sent :=
  ⟨(unknown_command_dropped demoExternal .zero (cmd "<@BOT> frobnicate") ()
      "<@BOT>" "frobnicate" [] (by decide) (by decide)).1,
   by
    rw [(unknown_command_dropped demoExternal .zero (cmd "<@BOT> frobnicate") ()
      "<@BOT>" "frobnicate" [] (by decide) (by decide)).2]
    decide⟩

theorem sprintfExtra_ne_format (quote : String → String) (format : String)
    (err : Option NumError) : SprintfExtra quote format err ≠ format := by
  intro h
  have h2 := congrArg String.length h
  simp only [SprintfExtra, String.length_append] at h2
  have h3 : ("%!(EXTRA " : String).length = 9 := by decide
  omega

theorem sprintfExtra_nil_ne (quote : String → String) (format : String) (e : NumError) :
    SprintfExtra quote format none ≠ SprintfExtra quote format (some e) := by
  intro h
  have h2 := congrArg String.data h
  simp [SprintfExtra, String.data_append] at h2

/-- C1. What `add` does on the inputs the claim covers. With no argument the
router indexes `commandArray[2]` out of range and panics before it tests the
length. With one argument, or a first argument that does not parse, it calls no
action and sends a reply with color `#B733FF` and no fields whose text is what
`fmt.Sprintf("Invalid command", err)` yields: never the bare `Invalid command`,
and not the same text when `err` is nil as when it is not. -/
theorem add_invalid_diverges {σ : Type} (X : External σ) (ac : AttachmentChannel)
    (bc : BotCentral) (w : σ) :
    (∀ m, Fields bc.Event.Text = [m, "add"] → handleBotCommand X ac bc w = .panic 2 2) ∧
    (∀ m a rest, Fields bc.Event.Text = m :: "add" :: a :: rest →
      (rest = [] ∨ (Atoi a).2 ≠ none) →
      ∃ h body, handleBotCommand X ac bc w = .ok h ∧ h.calls = [] ∧
        h.sent = some ⟨bc.Channel, some body, ac.DisplayTitle⟩ ∧
        body.Color = "#B733FF" ∧ body.Fields = [] ∧
        body.Pretext = SprintfExtra X.Quote "Invalid command" (Atoi a).2 ∧
        body.Pretext ≠ "Invalid command") ∧
    (∀ e, SprintfExtra X.Quote "Invalid command" none ≠
      SprintfExtra X.Quote "Invalid command" (some e)) := by
  refine ⟨?_, ?_, fun e => sprintfExtra_nil_ne _ _ e⟩
  · intro m hf
    unfold handleBotCommand
    simp [hf]
  · intro m a rest hf hbad
    have hcond : (rest.length + 1 + 1 + 1 < 4 ∨ ¬ (Atoi a).2 = none) := by
      rcases hbad with rfl | hbad
      · left; simp
      · right; exact hbad
    have hrun : handleBotCommand X ac bc w = .ok
        ⟨⟨bc.Channel, some ⟨"#B733FF", SprintfExtra X.Quote "Invalid command" (Atoi a).2, []⟩,
            ac.DisplayTitle⟩,
          some ⟨bc.Channel,
            some ⟨"#B733FF", SprintfExtra X.Quote "Invalid command" (Atoi a).2, []⟩,
            ac.DisplayTitle⟩,
          [], w⟩ := by
      unfold handleBotCommand
      simp only [hf, List.length_cons]
      simp [hcond]
    exact ⟨_, ⟨"#B733FF", SprintfExtra X.Quote "Invalid command" (Atoi a).2, []⟩, hrun,
      rfl, rfl, rfl, rfl, rfl, sprintfExtra_ne_format _ _ _⟩

/-- For bot `U1`: `<@U1> add` makes the router panic; `<@U1> add 3` is answered
with the text `Invalid command%!(EXTRA <nil>)`, and `<@U1> add x y` with a text
that names the parse error. -/
theorem add_invalid_diverges_witness :
    handleBotCommand demoExternal .zero (cmd "<@U1> add") () = .panic 2 2 ∧
    (handleBotCommand demoExternal .zero (cmd "<@U1> add 3") ()) =
      .ok ⟨⟨(cmd "").Channel, some ⟨"#B733FF", "Invalid command%!(EXTRA <nil>)", []⟩, ""⟩,
        some ⟨(cmd "").Channel, some ⟨"#B733FF", "Invalid command%!(EXTRA <nil>)", []⟩, ""⟩,
        [], ()⟩ ∧
    (handleBotCommand demoExternal .zero (cmd "<@U1> add x y") ()) =
      .ok ⟨⟨(cmd "").Channel, some ⟨"#B733FF",
          "Invalid command%!(EXTRA *strconv.NumError=strconv.Atoi: parsing \"x\": invalid syntax)",
          []⟩, ""⟩,
        some ⟨(cmd "").Channel, some ⟨"#B733FF",
          "Invalid command%!(EXTRA *strconv.NumError=strconv.Atoi: parsing \"x\": invalid syntax)",
          []⟩, ""⟩,
        [], ()⟩ :=
  ⟨(add_invalid_diverges demoExternal .zero (cmd "<@U1> add") ()).1 "<@U1>" (by decide),
   by decide, by decide⟩

/-- C5. The reply to `help` lists the entries of the map `commands`, which are
`list` and `help`: its fields are titled `<bot> list` and `<bot> help`, in some
order, so `complete` and `add`, which the router handles too, are not listed. -/
theorem help_lists_commands_map {σ : Type} (X : External σ) (ac : AttachmentChannel)
    (bc : BotCentral) (w : σ) (hf : (Fields bc.Event.Text)[1]? = some "help") :
    ∃ h reply body, handleBotCommand X ac bc w = .ok h ∧ h.calls = [] ∧
      h.sent = some reply ∧ reply.Attachment = some body ∧
      body.Fields.Perm
        [⟨"<bot> list", "See the current shopping list", false⟩,
         ⟨"<bot> help", "See the available bot commands.", false⟩] ∧
      (∀ f ∈ body.Fields, f.Title ≠ "<bot> complete" ∧ f.Title ≠ "<bot> add") ∧
      "complete" ∈ handledNames ∧ "add" ∈ handledNames := by
  have hperm := (X.range_perm w).map
    (fun kv : String × String => AttachmentField.mk ("<bot> " ++ kv.1) kv.2 false)
  have hrun : handleBotCommand X ac bc w = .ok
      ⟨⟨bc.Channel, some ⟨"#B733FF", "Bot Command List", (X.rangeCommands w).1.map
          (fun kv : String × String => AttachmentField.mk ("<bot> " ++ kv.1) kv.2 false)⟩,
          "Fortune & Karam with Luck"⟩,
        some ⟨bc.Channel, some ⟨"#B733FF", "Bot Command List", (X.rangeCommands w).1.map
          (fun kv : String × String => AttachmentField.mk ("<bot> " ++ kv.1) kv.2 false)⟩,
          "Fortune & Karam with Luck"⟩,
        [], (X.rangeCommands w).2⟩ := by
    unfold handleBotCommand
    simp [hf]
  refine ⟨_, _, _, hrun, rfl, rfl, rfl, hperm, ?_, by decide, by decide⟩
  · intro f hfm
    have hmem := hperm.mem_iff.mp hfm
    simp only [commands, List.map_cons, List.map_nil, List.mem_cons, List.mem_singleton,
      List.not_mem_nil, or_false] at hmem
    rcases hmem with rfl | rfl <;> exact ⟨by decide, by decide⟩

/-- The reply to `<@U1> help` has exactly the two fields for `list` and `help`. -/
theorem help_lists_commands_map_witness :
    ∃ h reply body, handleBotCommand demoExternal .zero (cmd "<@U1> help") () = .ok h ∧
      h.calls = [] ∧ h.sent = some reply ∧ reply.Attachment = some body ∧
      body.Fields.Perm
        [⟨"<bot> list", "See the current shopping list", false⟩,
         ⟨"<bot> help", "See the available bot commands.", false⟩] ∧
      (∀ f ∈ body.Fields, f.Title ≠ "<bot> complete" ∧ f.Title ≠ "<bot> add") ∧
      "complete" ∈ handledNames ∧ "add" ∈ handledNames :=
  help_lists_commands_map demoExternal .zero (cmd "<@U1> help") () (by decide)

/-- Where the fields of a reply come from: the channel is that of the command and
the router keeps the reply as its variable, while the display title is set by
`help` alone and is otherwise the one the variable held before. -/
theorem reply_fields_origin {σ : Type} (X : External σ) (ac : AttachmentChannel)
    (bc : BotCentral) (w : σ) (h : Handled σ) (reply : AttachmentChannel)
    (hok : handleBotCommand X ac bc w = .ok h) (hsent : h.sent = some reply) :
    reply.Channel = bc.Channel ∧ h.attachmentChannel = reply ∧
    reply.DisplayTitle =
      if (Fields bc.Event.Text)[1]? = some "help" then "Fortune & Karam with Luck"
      else ac.DisplayTitle := by
  unfold handleBotCommand at hok
  cases h1 : (Fields bc.Event.Text)[1]? with
  | none => simp [h1] at hok
  | some name =>
    simp only [h1] at hok
    by_cases hh : name = "help"
    · simp only [hh, if_true] at hok
      cases hok; cases hsent; simp [hh]
    · simp only [hh, if_false] at hok
      have hne : ¬ (some name = some "help") := by simpa using hh
      simp only [hne, if_false]
      split_ifs at hok with h2 h3 h4
      · cases hok; cases hsent; simp
      · cases hok; cases hsent; simp
      · cases h5 : (Fields bc.Event.Text)[2]? with
        | none => simp [h5] at hok
        | some arg =>
          simp only [h5] at hok
          split_ifs at hok <;> (cases hok; cases hsent; simp)
      · cases hok; simp at hsent

/-- C10. The reply to `list` depends on what was handled before: alone it carries
an empty display title, after a `help` it carries the title that `help` set,
with the same channel and the same body from the action. -/
theorem reply_title_depends_on_history :
    (handleBotCommands demoExternal [cmd "<@U1> list"] .zero ()).sent =
      [⟨some ⟨"C1", "general"⟩, some ⟨"#00FF00", "Shopping list", []⟩, ""⟩] ∧
    (handleBotCommands demoExternal [cmd "<@U1> help", cmd "<@U1> list"] .zero ()).sent.getLast? =
      some ⟨some ⟨"C1", "general"⟩, some ⟨"#00FF00", "Shopping list", []⟩,
        "Fortune & Karam with Luck"⟩ := by
  decide

/-! ## The mention token and the split of the text -/

/-- C8, as the claim states it. For bot `U1` the text `<@U1>help me` passes the
prefix test; its element 0 is `<@U1>help`, not the mention token, and the router
dispatches on element 1, the token `me`. -/
theorem mention_glued_to_command :
    HasPrefix "<@U1>help me" ("<@" ++ "U1" ++ ">") = true ∧
    Fields "<@U1>help me" = ["<@U1>help", "me"] ∧
    (Fields "<@U1>help me")[0]? ≠ some ("<@" ++ "U1" ++ ">") ∧
    handleBotCommand demoExternal .zero (cmd "<@U1>help me") () =
      .ok ⟨{ AttachmentChannel.zero with Channel := (cmd "").Channel }, none, [], ()⟩ := by
  decide

/-- The split of a text made of the mention token and a remainder, for a bot id
without white space: element 0 is the mention token exactly when the remainder
is empty or begins with white space, and then the split is the mention token
followed by the split of the remainder. -/
theorem fields_mention_split (botId rest : String)
    (hid : ∀ c ∈ botId.data, IsSpace c = false) :
    HasPrefix ("<@" ++ botId ++ ">" ++ rest) ("<@" ++ botId ++ ">") = true ∧
    ((Fields ("<@" ++ botId ++ ">" ++ rest))[0]? = some ("<@" ++ botId ++ ">") ↔
      ∀ c, rest.data.head? = some c → IsSpace c = true) ∧
    ((∀ c, rest.data.head? = some c → IsSpace c = true) →
      Fields ("<@" ++ botId ++ ">" ++ rest) = ("<@" ++ botId ++ ">") :: Fields rest) := by
  have hm : ∀ c ∈ ("<@" ++ botId ++ ">").data, IsSpace c = false := by
    intro c hc
    simp only [String.data_append, List.mem_append] at hc
    rcases hc with (hc | hc) | hc
    · have : c = '<' ∨ c = '@' := by simpa using hc
      rcases this with rfl | rfl <;> decide
    · exact hid c hc
    · have : c = '>' := by simpa using hc
      subst this; decide
  have hne : ("<@" ++ botId ++ ">").data ≠ [] := by simp
  have hsplit : (∀ c, rest.data.head? = some c → IsSpace c = true) →
      Fields ("<@" ++ botId ++ ">" ++ rest) = ("<@" ++ botId ++ ">") :: Fields rest := by
    intro hrest
    have hr : rest.data = [] ∨ ∃ c cs, rest.data = c :: cs ∧ IsSpace c = true := by
      cases hd : rest.data with
      | nil => exact Or.inl rfl
      | cons c cs => exact Or.inr ⟨c, cs, rfl, hrest c (by simp [hd])⟩
    have := fieldsAux_token _ hm rest.data hr [] (Or.inr hne)
    unfold Fields
    rw [String.data_append, this]
    simp only [List.reverse_nil, List.nil_append, List.map_cons, List.cons.injEq, true_and]
  refine ⟨(hasPrefix_iff _ _).mpr ⟨rest, rfl⟩, ⟨?_, fun hrest => ?_⟩, hsplit⟩
  · intro h0 c hc
    by_contra hsp
    have hsp : IsSpace c = false := by simpa using hsp
    obtain ⟨cs, hcs⟩ : ∃ cs, rest.data = c :: cs := by
      cases hd : rest.data with
      | nil => simp [hd] at hc
      | cons a cs => simp [hd] at hc; exact ⟨cs, by rw [hc]⟩
    have h1 := fieldsAux_token _ hm [] (Or.inl rfl) [] (Or.inr hne)
    have hstep : fieldsAux (("<@" ++ botId ++ ">").data ++ rest.data) [] =
        fieldsAux cs (c :: ("<@" ++ botId ++ ">").data.reverse) := by
      rw [hcs]
      have key : ∀ (m : List Char), (∀ x ∈ m, IsSpace x = false) → ∀ cur,
          fieldsAux (m ++ c :: cs) cur = fieldsAux cs (c :: (m.reverse ++ cur)) := by
        intro m
        induction m with
        | nil => intro _ cur; simp [fieldsAux, hsp]
        | cons a m ih =>
          intro hm2 cur
          have ha : IsSpace a = false := hm2 a (by simp)
          have := ih (fun x hx => hm2 x (by simp [hx])) (a :: cur)
          simp [fieldsAux, ha, this]
      simpa using key _ hm []
    obtain ⟨f, fs, hf, hlen⟩ := fieldsAux_head_length cs
      (c :: ("<@" ++ botId ++ ">").data.reverse) (by simp)
    unfold Fields at h0
    rw [String.data_append, hstep, hf] at h0
    simp only [List.map_cons, List.getElem?_cons_zero, Option.some.injEq] at h0
    have h2 : f = ("<@" ++ botId ++ ">").data := congrArg String.data h0
    rw [h2] at hlen
    simp only [List.length_cons, List.length_reverse] at hlen
    omega
  · rw [hsplit hrest]; simp

/-- What one iteration of the router does, told by the tokens behind element 0 of
the split: it switches on the first of them and takes the ones after it as the
arguments. -/
theorem handleBotCommand_dispatch {σ : Type} (X : External σ) (ac : AttachmentChannel)
    (bc : BotCentral) (w : σ) (m : String) (toks : List String)
    (hF : Fields bc.Event.Text = m :: toks) :
    (toks = [] → handleBotCommand X ac bc w = .panic 1 1) ∧
    (∀ name args, toks = name :: args →
      (name = "help" → ∃ h reply, handleBotCommand X ac bc w = .ok h ∧ h.calls = [] ∧
        h.sent = some reply ∧ reply.Channel = bc.Channel ∧
        reply.DisplayTitle = "Fortune & Karam with Luck") ∧
      (name = "list" → ∃ h, handleBotCommand X ac bc w = .ok h ∧
        h.calls = [.RetrieveLatestShoppingList] ∧
        h.sent = some ⟨bc.Channel, (X.RetrieveLatestShoppingList w).1, ac.DisplayTitle⟩) ∧
      (name = "complete" → ∃ h, handleBotCommand X ac bc w = .ok h ∧
        h.calls = [.CompleteList] ∧
        h.sent = some ⟨bc.Channel, (X.CompleteList w).1, ac.DisplayTitle⟩) ∧
      (name = "add" → args = [] → handleBotCommand X ac bc w = .panic 2 2) ∧
      (name = "add" → ∀ a more, args = a :: more → (more = [] ∨ (Atoi a).2 ≠ none) →
        ∃ h, handleBotCommand X ac bc w = .ok h ∧ h.calls = [] ∧ h.sent.isSome = true) ∧
      (name = "add" → ∀ a b more, args = a :: b :: more → (Atoi a).2 = none →
        ∃ h, handleBotCommand X ac bc w = .ok h ∧
          h.calls = [.AppendToShoppingList ⟨(Atoi a).1, Join (b :: more) " "⟩] ∧
          h.sent = some ⟨bc.Channel,
            (X.AppendToShoppingList ⟨(Atoi a).1, Join (b :: more) " "⟩ w).1,
            ac.DisplayTitle⟩) ∧
      (name ∉ handledNames → handleBotCommand X ac bc w =
        .ok ⟨{ ac with Channel := bc.Channel }, none, [], w⟩)) := by
  refine ⟨?_, ?_⟩
  · rintro rfl
    unfold handleBotCommand
    simp [hF]
  · rintro name args rfl
    refine ⟨?_, ?_, ?_, ?_, ?_, ?_, ?_⟩
    · rintro rfl
      unfold handleBotCommand
      simp [hF]
    · rintro rfl
      unfold handleBotCommand
      simp [hF]
    · rintro rfl
      unfold handleBotCommand
      simp [hF]
    · rintro rfl rfl
      unfold handleBotCommand
      simp [hF]
    · rintro rfl a more rfl hbad
      have hcond : (more.length + 1 + 1 + 1 < 4 ∨ ¬ (Atoi a).2 = none) := by
        rcases hbad with rfl | hbad
        · left; simp
        · right; exact hbad
      unfold handleBotCommand
      simp only [hF, List.length_cons]
      simp [hcond]
    · rintro rfl a b more rfl hq
      have hlen : ¬ (more.length + 1 + 1 + 1 + 1 < 4) := by omega
      unfold handleBotCommand
      simp [hF, hq, hlen]
    · intro hname
      simp only [handledNames, List.mem_cons, List.mem_singleton, List.not_mem_nil, or_false,
        not_or] at hname
      obtain ⟨h1, h2, h3, h4⟩ := hname
      unfold handleBotCommand
      simp [hF, h1, h2, h3, h4]

/-- C8, amended. Take a bot id without white space and a text made of the mention
token and a remainder. The text passes the prefix test, and `main` forwards a
message of type `message` with that text whenever the channel lookup succeeds.
Element 0 of the split of the text is the mention token exactly when the
remainder is empty or begins with white space, and then the split of the text is
the mention token followed by the split of the remainder. In that case the
router dispatches on the first token of the remainder and takes the tokens after
it as the arguments: with no token it panics, `help`, `list` and `complete` run
their cases, `add` reads its quantity from the first argument and joins the ones
after it, and any other first token is dropped. -/
theorem mention_token_first {σ : Type} (X : External σ) (botId rest : String)
    (hid : ∀ c ∈ botId.data, IsSpace c = false) :
    HasPrefix ("<@" ++ botId ++ ">" ++ rest) ("<@" ++ botId ++ ">") = true ∧
    ((Fields ("<@" ++ botId ++ ">" ++ rest))[0]? = some ("<@" ++ botId ++ ">") ↔
      ∀ c, rest.data.head? = some c → IsSpace c = true) ∧
    ((∀ c, rest.data.head? = some c → IsSpace c = true) →
      Fields ("<@" ++ botId ++ ">" ++ rest) = ("<@" ++ botId ++ ">") :: Fields rest) ∧
    (∀ (ev : MessageEvent) (ch : Channel) (w : σ), ev.Type_ = "message" →
      ev.Text = "<@" ++ botId ++ ">" ++ rest →
      (X.GetChannelInfo ev.Channel w).1 = some ch →
      (mainLoopBody X botId (.MessageEvent ev) w).forwarded = some ⟨some ch, ev, ev.User⟩) ∧
    (∀ (ac : AttachmentChannel) (bc : BotCentral) (w : σ),
      bc.Event.Text = "<@" ++ botId ++ ">" ++ rest →
      (∀ c, rest.data.head? = some c → IsSpace c = true) →
      (Fields rest = [] → handleBotCommand X ac bc w = .panic 1 1) ∧
      (∀ name args, Fields rest = name :: args →
        (name = "help" → ∃ h reply, handleBotCommand X ac bc w = .ok h ∧ h.calls = [] ∧
          h.sent = some reply ∧ reply.Channel = bc.Channel ∧
          reply.DisplayTitle = "Fortune & Karam with Luck") ∧
        (name = "list" → ∃ h, handleBotCommand X ac bc w = .ok h ∧
          h.calls = [.RetrieveLatestShoppingList] ∧
          h.sent = some ⟨bc.Channel, (X.RetrieveLatestShoppingList w).1, ac.DisplayTitle⟩) ∧
        (name = "complete" → ∃ h, handleBotCommand X ac bc w = .ok h ∧
          h.calls = [.CompleteList] ∧
          h.sent = some ⟨bc.Channel, (X.CompleteList w).1, ac.DisplayTitle⟩) ∧
        (name = "add" → args = [] → handleBotCommand X ac bc w = .panic 2 2) ∧
        (name = "add" → ∀ a more, args = a :: more → (more = [] ∨ (Atoi a).2 ≠ none) →
          ∃ h, handleBotCommand X ac bc w = .ok h ∧ h.calls = [] ∧ h.sent.isSome = true) ∧
        (name = "add" → ∀ a b more, args = a :: b :: more → (Atoi a).2 = none →
          ∃ h, handleBotCommand X ac bc w = .ok h ∧
            h.calls = [.AppendToShoppingList ⟨(Atoi a).1, Join (b :: more) " "⟩] ∧
            h.sent = some ⟨bc.Channel,
              (X.AppendToShoppingList ⟨(Atoi a).1, Join (b :: more) " "⟩ w).1,
              ac.DisplayTitle⟩) ∧
        (name ∉ handledNames → handleBotCommand X ac bc w =
          .ok ⟨{ ac with Channel := bc.Channel }, none, [], w⟩))) := by
  obtain ⟨h1, h2, h3⟩ := fields_mention_split botId rest hid
  refine ⟨h1, h2, h3, ?_, ?_⟩
  · intro ev ch w hty htext hch
    have hpre : HasPrefix ev.Text ("<@" ++ botId ++ ">") = true := by rw [htext]; exact h1
    unfold mainLoopBody
    simp [hch, hty, hpre]
  · intro ac bc w htext hrest
    have hF : Fields bc.Event.Text = ("<@" ++ botId ++ ">") :: Fields rest := by
      rw [htext]; exact h3 hrest
    exact handleBotCommand_dispatch X ac bc w _ _ hF

/-- For bot `U1` and the remainder ` add 3 milk`: the split is the mention token,
then `add`, then the arguments; `main` forwards the message and the router
appends the item with quantity 3 and name `milk`. -/
theorem mention_token_first_witness :
    (∀ c ∈ ("U1" : String).data, IsSpace c = false) ∧
    Fields ("<@" ++ "U1" ++ ">" ++ " add 3 milk") = ("<@" ++ "U1" ++ ">") :: Fields " add 3 milk" ∧
    Fields " add 3 milk" = ["add", "3", "milk"] ∧
    (mainLoopBody demoExternal "U1" (.MessageEvent (msg ("<@" ++ "U1" ++ ">" ++ " add 3 milk")))
      ()).forwarded = some (cmd ("<@" ++ "U1" ++ ">" ++ " add 3 milk")) ∧
    (∃ h, handleBotCommand demoExternal .zero (cmd ("<@" ++ "U1" ++ ">" ++ " add 3 milk")) ()
        = .ok h ∧
      h.calls = [.AppendToShoppingList ⟨(Atoi "3").1, Join ["milk"] " "⟩] ∧
      h.sent = some ⟨(cmd "").Channel,
        (demoExternal.AppendToShoppingList ⟨(Atoi "3").1, Join ["milk"] " "⟩ ()).1, ""⟩) ∧
    (Atoi "3").1 = 3 ∧ Join ["milk"] " " = "milk" :=
  ⟨by decide,
   (mention_token_first demoExternal "U1" " add 3 milk" (by decide)).2.2.1 (by decide),
   by decide,
   (mention_token_first demoExternal "U1" " add 3 milk" (by decide)).2.2.2.1
     (msg ("<@" ++ "U1" ++ ">" ++ " add 3 milk")) ⟨"C1", "general"⟩ () rfl rfl rfl,
   ((mention_token_first demoExternal "U1" " add 3 milk" (by decide)).2.2.2.2
     .zero (cmd ("<@" ++ "U1" ++ ">" ++ " add 3 milk")) () rfl (by decide)).2
     "add" ["3", "milk"] (by decide) |>.2.2.2.2.2.1 rfl "3" "milk" [] rfl (by decide),
   by decide, by decide⟩

/-! ## The ingest loop -/

theorem mainLoopBody_forwarded {σ : Type} (X : External σ) (botId : String)
    (event : InboundEvent) (w : σ) (bc : BotCentral)
    (hbc : (mainLoopBody X botId event w).forwarded = some bc) :
    event = .MessageEvent bc.Event ∧ bc.Event.Type_ = "message" ∧
    ∃ rest : String, bc.Event.Text = "<@" ++ botId ++ ">" ++ rest := by
  cases event with
  | MessageEvent ev =>
    unfold mainLoopBody at hbc
    cases hch : (X.GetChannelInfo ev.Channel w).1 with
    | none => simp [hch] at hbc
    | some ch =>
      simp only [hch] at hbc
      by_cases hcond : ev.Type_ = "message" ∧ HasPrefix ev.Text ("<@" ++ botId ++ ">") = true
      · simp only [hcond, and_self, if_true, Option.some.injEq] at hbc
        subst hbc
        exact ⟨rfl, hcond.1, (hasPrefix_iff _ _).mp hcond.2⟩
      · simp [hcond] at hbc
  | _ => simp [mainLoopBody] at hbc

/-- C4. The loop of `main` puts a command on `botCommandChannel` only for a message
event of type `message` whose text is the mention token followed by anything,
and the command is built from that event; for any other event, and for a message
whose text does not start with the mention token, nothing is sent. -/
theorem forwards_only_mentions {σ : Type} (X : External σ) (botId : String)
    (event : InboundEvent) (w : σ) :
    (∀ bc, (mainLoopBody X botId event w).forwarded = some bc →
      event = .MessageEvent bc.Event ∧ bc.Event.Type_ = "message" ∧
      ∃ rest : String, bc.Event.Text = "<@" ++ botId ++ ">" ++ rest) ∧
    ((∀ ev, event ≠ .MessageEvent ev) → (mainLoopBody X botId event w).forwarded = none) ∧
    (∀ ev, event = .MessageEvent ev → HasPrefix ev.Text ("<@" ++ botId ++ ">") = false →
      (mainLoopBody X botId event w).forwarded = none) := by
  refine ⟨fun bc hbc => mainLoopBody_forwarded X botId event w bc hbc, ?_, ?_⟩
  · intro hne
    cases event with
    | MessageEvent ev => exact absurd rfl (hne ev)
    | _ => rfl
  · rintro ev rfl hpre
    unfold mainLoopBody
    cases hch : (X.GetChannelInfo ev.Channel w).1 with
    | none => simp [hch]
    | some ch => simp [hch, hpre]

/-- For bot `U1`: `<@U1> list` is forwarded; a team-join event, the same text
behind a blank, and the same text with the id in lower case are not. -/
theorem forwards_only_mentions_witness :
    (mainLoopBody demoExternal "U1" (.MessageEvent (msg "<@U1> list")) ()).forwarded =
      some (cmd "<@U1> list") ∧
    (mainLoopBody demoExternal "U1" .TeamJoinEvent ()).forwarded = none ∧
    (mainLoopBody demoExternal "U1" (.MessageEvent (msg " <@U1> list")) ()).forwarded = none ∧
    (mainLoopBody demoExternal "U1" (.MessageEvent (msg "<@u1> list")) ()).forwarded = none :=
  ⟨by decide,
   (forwards_only_mentions demoExternal "U1" .TeamJoinEvent ()).2.1 (by intro ev h; cases h),
   (forwards_only_mentions demoExternal "U1" (.MessageEvent (msg " <@U1> list")) ()).2.2
     _ rfl (by decide),
   (forwards_only_mentions demoExternal "U1" (.MessageEvent (msg "<@u1> list")) ()).2.2
     _ rfl (by decide)⟩

/-- C7, as the claim states it. Before any connected event the bot id is empty and
the mention token is `<@>`: the message `<@> list` passes the prefix test, is
forwarded, and the router answers it. -/
theorem empty_bot_id_matches :
    (mainLoop demoExternal [.MessageEvent (msg "<@> list"), .ConnectedEvent "U1"] "" ()).forwarded
      = [cmd "<@> list"] ∧
    (handleBotCommands demoExternal [cmd "<@> list"] .zero ()).sent =
      [⟨some ⟨"C1", "general"⟩, some ⟨"#00FF00", "Shopping list", []⟩, ""⟩] := by
  decide

theorem mainLoopBody_botId {σ : Type} (X : External σ) (botId : String)
    (event : InboundEvent) (w : σ) (h : ∀ userID, event ≠ .ConnectedEvent userID) :
    (mainLoopBody X botId event w).botId = botId := by
  cases event with
  | ConnectedEvent userID => exact absurd rfl (h userID)
  | MessageEvent ev =>
    unfold mainLoopBody
    cases hch : (X.GetChannelInfo ev.Channel w).1 with
    | none => simp [hch]
    | some ch => simp only [hch]; split_ifs <;> rfl
  | _ => rfl

/-- C7, amended. While no connected event has arrived the bot id is empty, and a
message event is forwarded only if it has type `message` and its text begins
with `<@>`: every command forwarded from a sequence of events without a
connected event comes from such a message of that sequence, and a message whose
text does not begin with `<@>` is not forwarded. -/
theorem before_connected_only_empty_mention {σ : Type} (X : External σ)
    (events : List InboundEvent) (w : σ)
    (hno : ∀ userID, InboundEvent.ConnectedEvent userID ∉ events) :
    (mainLoop X events "" w).botId = "" ∧
    (∀ bc ∈ (mainLoop X events "" w).forwarded,
      InboundEvent.MessageEvent bc.Event ∈ events ∧ bc.Event.Type_ = "message" ∧
      ∃ rest : String, bc.Event.Text = "<@>" ++ rest) ∧
    (∀ bc ∈ (mainLoop X events "" w).forwarded, HasPrefix bc.Event.Text "<@>" = true) := by
  have main : ∀ (events : List InboundEvent) (w : σ),
      (∀ userID, InboundEvent.ConnectedEvent userID ∉ events) →
      (mainLoop X events "" w).botId = "" ∧
      ∀ bc ∈ (mainLoop X events "" w).forwarded,
        InboundEvent.MessageEvent bc.Event ∈ events ∧ bc.Event.Type_ = "message" ∧
        ∃ rest : String, bc.Event.Text = "<@>" ++ rest := by
    intro events
    induction events with
    | nil => intro w _; simp [mainLoop]
    | cons event rest ih =>
      intro w hno
      have hev : ∀ userID, event ≠ .ConnectedEvent userID :=
        fun userID h => hno userID (by simp [h])
      have hrest : ∀ userID, InboundEvent.ConnectedEvent userID ∉ rest :=
        fun userID h => hno userID (by simp [h])
      have hid := mainLoopBody_botId X "" event w hev
      have hfw := mainLoopBody_forwarded X "" event w
      have hfw2 : ∀ bc ∈ (mainLoopBody X "" event w).forwarded.toList,
          InboundEvent.MessageEvent bc.Event ∈ event :: rest ∧ bc.Event.Type_ = "message" ∧
          ∃ r : String, bc.Event.Text = "<@>" ++ r := by
        intro bc hbc
        have hbc2 : (mainLoopBody X "" event w).forwarded = some bc := by
          simpa [Option.mem_toList] using hbc
        obtain ⟨h1, h2, r, h3⟩ := hfw bc hbc2
        exact ⟨by simp [h1], h2, r, by simpa using h3⟩
      unfold mainLoop
      cases hflow : (mainLoopBody X "" event w).flow with
      | next =>
        simp only [hflow]
        have := ih (mainLoopBody X "" event w).world hrest
        rw [hid]
        refine ⟨this.1, fun bc hbc => ?_⟩
        rcases List.mem_append.mp hbc with h | h
        · exact hfw2 bc h
        · obtain ⟨h1, h2⟩ := this.2 bc h
          exact ⟨by simp [h1], h2⟩
      | stop => simp only [hflow]; exact ⟨hid, hfw2⟩
      | fatal => simp only [hflow]; exact ⟨hid, hfw2⟩
  obtain ⟨h1, h2⟩ := main events w hno
  refine ⟨h1, h2, fun bc hbc => ?_⟩
  obtain ⟨_, _, r, hr⟩ := h2 bc hbc
  exact (hasPrefix_iff _ _).mpr ⟨r, hr⟩

/-- For the events team-join, `hello` and `<@U1> list`, none of them a connected
event, the bot id stays empty and nothing is forwarded. -/
theorem before_connected_only_empty_mention_witness :
    (∀ userID, InboundEvent.ConnectedEvent userID ∉
      [InboundEvent.TeamJoinEvent, .MessageEvent (msg "hello"), .MessageEvent (msg "<@U1> list")]) ∧
    (mainLoop demoExternal
      [.TeamJoinEvent, .MessageEvent (msg "hello"), .MessageEvent (msg "<@U1> list")] "" ()).botId
      = "" ∧
    (mainLoop demoExternal
      [.TeamJoinEvent, .MessageEvent (msg "hello"), .MessageEvent (msg "<@U1> list")] "" ()).forwarded
      = [] :=
  ⟨by intro userID; simp,
   (before_connected_only_empty_mention demoExternal
      [.TeamJoinEvent, .MessageEvent (msg "hello"), .MessageEvent (msg "<@U1> list")] ()
      (by intro userID; simp)).1,
   by decide⟩

/-! ## The three goroutines together -/

theorem handleBotCommand_sent {σ : Type} (X : External σ) (ac : AttachmentChannel)
    (bc : BotCentral) (w : σ) (h : Handled σ) (hok : handleBotCommand X ac bc w = .ok h) :
    h.sent.isSome = isHandled bc := by
  unfold handleBotCommand at hok
  unfold isHandled
  cases h1 : (Fields bc.Event.Text)[1]? with
  | none => simp [h1] at hok
  | some name =>
    simp only [h1] at hok
    split_ifs at hok with h2 h3 h4 h5
    · cases hok; subst h2; simp [handledNames]
    · cases hok; subst h3; simp [handledNames]
    · cases hok; subst h4; simp [handledNames]
    · cases h6 : (Fields bc.Event.Text)[2]? with
      | none => simp [h6] at hok
      | some arg =>
        simp only [h6] at hok
        split_ifs at hok <;> (cases hok; subst h5; simp [handledNames])
    · cases hok
      simp [handledNames, h2, h3, h4, h5]

theorem pipelineInv_init {σ : Type} (events : List InboundEvent) (w : σ) :
    PipelineInv (Sys.init events w) :=
  ⟨[], by simp [validClassified, Sys.init], fun _ => by simp [inFlight, Sys.init]⟩

theorem pipelineInv_stepMain {σ : Type} (X : External σ) (s : Sys σ)
    (hh : s.halted = none) (hinv : PipelineInv s) : PipelineInv (stepMain X s) := by
  obtain ⟨tail, h1, h2⟩ := hinv
  have ht := h2 hh
  subst ht
  unfold stepMain
  cases hm : s.main with
  | reading =>
    cases he : s.events with
    | nil => simpa [hm, he] using (⟨inFlight s, h1, fun _ => rfl⟩ : PipelineInv s)
    | cons event rest =>
      simp only []
      cases hflow : (mainLoopBody X s.botId event s.world).flow with
      | next =>
        cases hfw : (mainLoopBody X s.botId event s.world).forwarded with
        | none =>
          refine ⟨inFlight s, by simpa [validClassified] using h1, fun _ => ?_⟩
          simp [inFlight, hm]
        | some bc =>
          refine ⟨inFlight s ++ (if isHandled bc then [s.seen] else []), ?_, fun _ => ?_⟩
          · simp only [validClassified, List.filter_append, List.map_append] at h1 ⊢
            rw [h1]
            by_cases hb : isHandled bc <;> simp [hb, List.filter]
          · simp [inFlight, hm]
      | stop => exact ⟨inFlight s, by simpa [validClassified] using h1, fun h => by simp at h⟩
      | fatal => exact ⟨inFlight s, by simpa [validClassified] using h1, fun h => by simp at h⟩
  | sending i bc =>
    cases hr : s.router with
    | receiving =>
      refine ⟨inFlight s, by simpa [validClassified] using h1, fun _ => ?_⟩
      simp [inFlight, hm, hr]
    | handling j bc2 => simpa [hm, hr] using (⟨inFlight s, h1, fun _ => rfl⟩ : PipelineInv s)
    | sending j ac => simpa [hm, hr] using (⟨inFlight s, h1, fun _ => rfl⟩ : PipelineInv s)

theorem pipelineInv_stepRouter {σ : Type} (X : External σ) (s : Sys σ)
    (hh : s.halted = none) (hinv : PipelineInv s) : PipelineInv (stepRouter X s) := by
  obtain ⟨tail, h1, h2⟩ := hinv
  have ht := h2 hh
  subst ht
  unfold stepRouter
  cases hr : s.router with
  | receiving => simpa [hr] using (⟨inFlight s, h1, fun _ => rfl⟩ : PipelineInv s)
  | handling i bc =>
    simp only []
    cases hres : handleBotCommand X s.attachmentChannel bc s.world with
    | panic idx len =>
      exact ⟨inFlight s, by simpa [validClassified] using h1, fun h => by simp at h⟩
    | ok h =>
      have hsent := handleBotCommand_sent X _ _ _ h hres
      refine ⟨inFlight s, by simpa [validClassified] using h1, fun _ => ?_⟩
      cases hs : h.sent with
      | none =>
        have : isHandled bc = false := by rw [← hsent, hs]; rfl
        simp [inFlight, hr, hs, this]
      | some ac =>
        have : isHandled bc = true := by rw [← hsent, hs]; rfl
        simp [inFlight, hr, hs, this]
  | sending i ac =>
    cases hp : s.publisher with
    | receiving =>
      refine ⟨inFlight s, by simpa [validClassified] using h1, fun _ => ?_⟩
      simp [inFlight, hr, hp]
    | posting j ac2 => simpa [hr, hp] using (⟨inFlight s, h1, fun _ => rfl⟩ : PipelineInv s)

theorem pipelineInv_stepPublisher {σ : Type} (X : External σ) (s : Sys σ)
    (hh : s.halted = none) (hinv : PipelineInv s) : PipelineInv (stepPublisher X s) := by
  obtain ⟨tail, h1, h2⟩ := hinv
  have ht := h2 hh
  subst ht
  unfold stepPublisher
  cases hp : s.publisher with
  | receiving => simpa [hp] using (⟨inFlight s, h1, fun _ => rfl⟩ : PipelineInv s)
  | posting i ac =>
    simp only []
    cases hpost : (handleBotReply X ac s.world).post with
    | none =>
      have hhalt : (handleBotReply X ac s.world).halt ≠ none := by
        unfold handleBotReply at hpost ⊢
        cases ha : ac.Attachment with
        | none => simp
        | some a =>
          cases hc : ac.Channel with
          | none => simp
          | some ch => simp [ha, hc] at hpost
      refine ⟨inFlight s, by simpa [validClassified] using h1, fun h => absurd h hhalt⟩
    | some post =>
      refine ⟨(match s.router with
          | .receiving => []
          | .handling i bc => if isHandled bc then [i] else []
          | .sending i _ => [i]) ++
        (match s.main with
          | .reading => []
          | .sending i bc => if isHandled bc then [i] else []), ?_, fun _ => ?_⟩
      · simp only [validClassified] at h1 ⊢
        rw [h1]
        simp [inFlight, hp]
      · simp [inFlight]

theorem pipelineInv_step {σ : Type} (X : External σ) (s : Sys σ) (g : Goroutine)
    (hinv : PipelineInv s) : PipelineInv (step X s g) := by
  unfold step
  cases hh : s.halted with
  | some e => simpa [hh] using hinv
  | none =>
    simp only [Option.isSome_none, Bool.false_eq_true, if_false]
    cases g with
    | main => exact pipelineInv_stepMain X s hh hinv
    | router => exact pipelineInv_stepRouter X s hh hinv
    | publisher => exact pipelineInv_stepPublisher X s hh hinv

theorem pipelineInv_run {σ : Type} (X : External σ) (schedule : List Goroutine) :
    ∀ s : Sys σ, PipelineInv s → PipelineInv (run X schedule s) := by
  induction schedule with
  | nil => intro s h; exact h
  | cons g rest ih => intro s h; exact ih _ (pipelineInv_step X s g h)

theorem positionInv_init {σ : Type} (events : List InboundEvent) (w : σ) :
    PositionInv events (Sys.init events w) :=
  ⟨by simp [Sys.init], by simp [Sys.init], ⟨[], by simp [Sys.init]⟩, by simp [Sys.init]⟩

theorem positionInv_stepMain {σ : Type} (X : External σ) (events : List InboundEvent)
    (s : Sys σ) (hinv : PositionInv events s) : PositionInv events (stepMain X s) := by
  have ⟨h1, h2, ⟨consumed, h3, h4⟩, h5⟩ := hinv
  unfold stepMain
  cases hm : s.main with
  | reading =>
    cases he : s.events with
    | nil => exact hinv
    | cons event rest =>
      have hcons : ∃ consumed2, events = consumed2 ++ rest ∧ consumed2.length = s.seen + 1 :=
        ⟨consumed ++ [event], by simp [h3, he], by simp [h4]⟩
      have hlt : ∀ i ∈ s.classified.map Prod.fst, i < s.seen + 1 :=
        fun i hi => Nat.lt_succ_of_lt (h2 i hi)
      dsimp only
      cases hflow : (mainLoopBody X s.botId event s.world).flow with
      | next =>
        cases hfw : (mainLoopBody X s.botId event s.world).forwarded with
        | none => exact ⟨h1, hlt, hcons, h5⟩
        | some bc =>
          have hev := (mainLoopBody_forwarded X s.botId event s.world bc hfw).1
          dsimp only
          refine ⟨?_, ?_, hcons, ?_⟩
          · simp only [List.map_append, List.map_cons, List.map_nil]
            rw [List.pairwise_append]
            refine ⟨h1, by simp, fun a ha b hb => ?_⟩
            have : b = s.seen := by simpa using hb
            subst this
            exact h2 a ha
          · intro i hi
            simp only [List.map_append, List.map_cons, List.map_nil, List.mem_append,
              List.mem_singleton] at hi
            rcases hi with hi | hi
            · exact hlt i hi
            · subst hi; exact Nat.lt_succ_self _
          · intro p hp
            simp only [List.mem_append, List.mem_singleton] at hp
            rcases hp with hp | hp
            · exact h5 p hp
            · subst hp
              dsimp only
              rw [h3, he, ← h4, hev, List.getElem?_append_right (le_refl _)]
              simp
      | stop => exact ⟨h1, hlt, hcons, h5⟩
      | fatal => exact ⟨h1, hlt, hcons, h5⟩
  | sending i bc =>
    cases hr : s.router with
    | receiving => exact hinv
    | handling j bc2 => exact hinv
    | sending j ac => exact hinv

theorem positionInv_stepRouter {σ : Type} (X : External σ) (events : List InboundEvent)
    (s : Sys σ) (hinv : PositionInv events s) : PositionInv events (stepRouter X s) := by
  unfold stepRouter
  cases hr : s.router with
  | receiving => exact hinv
  | handling i bc =>
    dsimp only
    cases hres : handleBotCommand X s.attachmentChannel bc s.world with
    | panic idx len => exact hinv
    | ok h => exact hinv
  | sending i ac =>
    cases hp : s.publisher with
    | receiving => exact hinv
    | posting j ac2 => exact hinv

theorem positionInv_stepPublisher {σ : Type} (X : External σ) (events : List InboundEvent)
    (s : Sys σ) (hinv : PositionInv events s) : PositionInv events (stepPublisher X s) := by
  unfold stepPublisher
  cases hp : s.publisher with
  | receiving => exact hinv
  | posting i ac => exact hinv

theorem positionInv_run {σ : Type} (X : External σ) (events : List InboundEvent)
    (schedule : List Goroutine) :
    ∀ s : Sys σ, PositionInv events s → PositionInv events (run X schedule s) := by
  induction schedule with
  | nil => intro s h; exact h
  | cons g rest ih =>
    intro s h
    refine ih _ ?_
    unfold step
    split_ifs
    · exact h
    · cases g with
      | main => exact positionInv_stepMain X events s h
      | router => exact positionInv_stepRouter X events s h
      | publisher => exact positionInv_stepPublisher X events s h

theorem handleBotReply_post {σ : Type} (X : External σ) (ac : AttachmentChannel) (w : σ)
    (p : PostCall) (hp : (handleBotReply X ac w).post = some p) :
    ∃ ch, ac.Channel = some ch ∧ p.channel = ch.Name ∧ p.params.AsUser = true := by
  unfold handleBotReply at hp
  cases ha : ac.Attachment with
  | none => simp [ha] at hp
  | some a =>
    cases hc : ac.Channel with
    | none => simp [ha, hc] at hp
    | some ch =>
      simp only [ha, hc, Option.some.injEq] at hp
      subst hp
      exact ⟨ch, rfl, rfl, rfl⟩

theorem originInv_init {σ : Type} (events : List InboundEvent) (w : σ) :
    OriginInv (Sys.init events w) := by
  simp [OriginInv, Sys.init]

theorem originInv_stepMain {σ : Type} (X : External σ) (s : Sys σ)
    (hinv : OriginInv s) : OriginInv (stepMain X s) := by
  unfold OriginInv at hinv ⊢
  have ⟨h1, h2, h3, h4, h5⟩ := hinv
  unfold stepMain
  cases hm : s.main with
  | reading =>
    cases he : s.events with
    | nil => exact hinv
    | cons event rest =>
      have hno : ∀ i bc, MainPC.reading = .sending i bc → (i, bc) ∈ s.classified :=
        (fun _ _ h => nomatch h)
      dsimp only
      cases hflow : (mainLoopBody X s.botId event s.world).flow with
      | next =>
        cases hfw : (mainLoopBody X s.botId event s.world).forwarded with
        | none => exact ⟨hno, h2, h3, h4, h5⟩
        | some bc =>
          dsimp only
          refine ⟨?_, ?_, ?_, ?_, ?_⟩
          · intro i b h
            cases h
            simp
          · intro i b h
            exact List.mem_append_left _ (h2 i b h)
          · intro i ac h
            obtain ⟨b, hb, hc⟩ := h3 i ac h
            exact ⟨b, List.mem_append_left _ hb, hc⟩
          · intro i ac h
            obtain ⟨b, hb, hc⟩ := h4 i ac h
            exact ⟨b, List.mem_append_left _ hb, hc⟩
          · intro p hp
            obtain ⟨b, ch, hb, hc⟩ := h5 p hp
            exact ⟨b, ch, List.mem_append_left _ hb, hc⟩
      | stop => exact ⟨hno, h2, h3, h4, h5⟩
      | fatal => exact ⟨hno, h2, h3, h4, h5⟩
  | sending i bc =>
    cases hr : s.router with
    | receiving =>
      dsimp only
      refine ⟨(fun _ _ h => nomatch h), ?_, (fun _ _ h => nomatch h), h4, h5⟩
      intro j b h
      cases h
      exact h1 i bc hm
    | handling j bc2 => exact hinv
    | sending j ac => exact hinv

theorem originInv_stepRouter {σ : Type} (X : External σ) (s : Sys σ)
    (hinv : OriginInv s) : OriginInv (stepRouter X s) := by
  unfold OriginInv at hinv ⊢
  have ⟨h1, h2, h3, h4, h5⟩ := hinv
  unfold stepRouter
  cases hr : s.router with
  | receiving => exact hinv
  | handling i bc =>
    dsimp only
    cases hres : handleBotCommand X s.attachmentChannel bc s.world with
    | panic idx len =>
      exact ⟨h1, fun j b h => h2 j b (hr.trans h), fun j a h => h3 j a (hr.trans h), h4, h5⟩
    | ok h =>
      dsimp only
      refine ⟨h1, ?_, ?_, h4, h5⟩
      · intro j b hj
        cases hs : h.sent <;> simp [hs] at hj
      · intro j ac hj
        cases hs : h.sent with
        | none => simp [hs] at hj
        | some reply =>
          simp only [hs, RouterPC.sending.injEq] at hj
          obtain ⟨rfl, rfl⟩ := hj
          exact ⟨bc, h2 i bc hr, (reply_fields_origin X _ _ _ h reply hres hs).1⟩
  | sending i ac =>
    cases hp : s.publisher with
    | receiving =>
      dsimp only
      refine ⟨h1, (fun _ _ h => nomatch h), (fun _ _ h => nomatch h), ?_, h5⟩
      intro j a h
      cases h
      exact h3 i ac hr
    | posting j ac2 => exact hinv

theorem originInv_stepPublisher {σ : Type} (X : External σ) (s : Sys σ)
    (hinv : OriginInv s) : OriginInv (stepPublisher X s) := by
  unfold OriginInv at hinv ⊢
  have ⟨h1, h2, h3, h4, h5⟩ := hinv
  unfold stepPublisher
  cases hp : s.publisher with
  | receiving => exact hinv
  | posting i ac =>
    dsimp only
    refine ⟨h1, h2, h3, (fun _ _ h => nomatch h), ?_⟩
    intro p hmem
    rcases List.mem_append.mp hmem with hmem | hmem
    · exact h5 p hmem
    · cases hpost : (handleBotReply X ac s.world).post with
      | none => simp [hpost] at hmem
      | some post =>
        have hpe : p = (i, post) := by simpa [hpost] using hmem
        subst hpe
        obtain ⟨bc, hbc, hch⟩ := h4 i ac hp
        obtain ⟨ch, hc1, hc2, hc3⟩ := handleBotReply_post X ac s.world post hpost
        exact ⟨bc, ch, hbc, by rw [← hch, hc1], hc2, hc3⟩

theorem originInv_run {σ : Type} (X : External σ) (schedule : List Goroutine) :
    ∀ s : Sys σ, OriginInv s → OriginInv (run X schedule s) := by
  induction schedule with
  | nil => intro s h; exact h
  | cons g rest ih =>
    intro s h
    refine ih _ ?_
    unfold step
    split_ifs
    · exact h
    · cases g with
      | main => exact originInv_stepMain X s h
      | router => exact originInv_stepRouter X s h
      | publisher => exact originInv_stepPublisher X s h

theorem run_halted {σ : Type} (X : External σ) (schedule : List Goroutine) :
    ∀ s : Sys σ, s.halted.isSome = true → run X schedule s = s := by
  induction schedule with
  | nil => intro s _; rfl
  | cons g rest ih =>
    intro s h
    have : step X s g = s := by simp [step, h]
    show run X rest (step X s g) = s
    rw [this]
    exact ih s h

theorem step_progress {σ : Type} (X : External σ) (s : Sys σ)
    (hh : s.halted = none) (hq : quiescent s = false) :
    ∃ g, (step X s g).halted.isSome = true ∨ work (step X s g) < work s := by
  cases hp : s.publisher with
  | posting i ac =>
    refine ⟨.publisher, Or.inr ?_⟩
    simp [step, hh, stepPublisher, hp, work]
  | receiving =>
    cases hr : s.router with
    | handling i bc =>
      refine ⟨.router, ?_⟩
      cases hres : handleBotCommand X s.attachmentChannel bc s.world with
      | panic idx len => left; simp [step, hh, stepRouter, hr, hres]
      | ok h =>
        right
        cases hs : h.sent <;> simp [step, hh, stepRouter, hr, hres, hs, work, hp]
    | sending i ac =>
      refine ⟨.router, Or.inr ?_⟩
      simp [step, hh, stepRouter, hr, hp, work]
    | receiving =>
      cases hm : s.main with
      | sending i bc =>
        refine ⟨.main, Or.inr ?_⟩
        simp [step, hh, stepMain, hm, hr, hp, work]
      | reading =>
        cases he : s.events with
        | nil => simp [quiescent, he, hm, hr, hp] at hq
        | cons event rest =>
          refine ⟨.main, ?_⟩
          cases hflow : (mainLoopBody X s.botId event s.world).flow with
          | stop => left; simp [step, hh, stepMain, hm, he, hflow]
          | fatal => left; simp [step, hh, stepMain, hm, he, hflow]
          | next =>
            right
            cases hfw : (mainLoopBody X s.botId event s.world).forwarded <;>
              (simp [step, hh, stepMain, hm, he, hflow, hfw, work, hr, hp]; try omega)

theorem run_append {σ : Type} (X : External σ) (a b : List Goroutine) (s : Sys σ) :
    run X (a ++ b) s = run X b (run X a s) := by
  simp [run, List.foldl_append]

theorem reaches_rest {σ : Type} (X : External σ) :
    ∀ (n : Nat) (s : Sys σ), work s ≤ n →
      ∃ schedule, (run X schedule s).halted.isSome = true ∨
        quiescent (run X schedule s) = true := by
  intro n
  induction n with
  | zero =>
    intro s hw
    cases hh : s.halted with
    | some e => exact ⟨[], Or.inl (by simp [run, hh])⟩
    | none =>
      cases hq : quiescent s with
      | true => exact ⟨[], Or.inr (by simpa [run] using hq)⟩
      | false =>
        obtain ⟨g, hg | hg⟩ := step_progress X s hh hq
        · exact ⟨[g], Or.inl (by simpa [run] using hg)⟩
        · omega
  | succ n ih =>
    intro s hw
    cases hh : s.halted with
    | some e => exact ⟨[], Or.inl (by simp [run, hh])⟩
    | none =>
      cases hq : quiescent s with
      | true => exact ⟨[], Or.inr (by simpa [run] using hq)⟩
      | false =>
        obtain ⟨g, hg | hg⟩ := step_progress X s hh hq
        · exact ⟨[g], Or.inl (by simpa [run] using hg)⟩
        · obtain ⟨rest, hrest⟩ := ih (step X s g) (by omega)
          exact ⟨g :: rest, by simpa [run] using hrest⟩

theorem validClassified_pairwise {σ : Type} (s : Sys σ)
    (h : (s.classified.map Prod.fst).Pairwise (· < ·)) :
    (validClassified s).Pairwise (· < ·) :=
  h.sublist ((List.filter_sublist _).map Prod.fst)

/-- C9, as the claim states it. For bot `U1`, `<@U1> list` and `<@U1> complete` are
both classified as handled commands. Under the schedule below the first reply
is posted; the second command is in the router when `main` receives the
invalid-auth event and returns, which ends the process: the second reply is not
posted, then or under any further schedule. -/
theorem exit_leaves_reply_unposted :
    (run demoExternal
      [.main, .main, .main, .router, .router, .publisher, .main, .main, .main]
      (Sys.init [.ConnectedEvent "U1", .MessageEvent (msg "<@U1> list"),
        .MessageEvent (msg "<@U1> complete"), .InvalidAuthEvent] ())).halted
      = some .mainReturned ∧
    validClassified (run demoExternal
      [.main, .main, .main, .router, .router, .publisher, .main, .main, .main]
      (Sys.init [.ConnectedEvent "U1", .MessageEvent (msg "<@U1> list"),
        .MessageEvent (msg "<@U1> complete"), .InvalidAuthEvent] ())) = [1, 2] ∧
    ∀ more, ((run demoExternal
      ([.main, .main, .main, .router, .router, .publisher, .main, .main, .main] ++ more)
      (Sys.init [.ConnectedEvent "U1", .MessageEvent (msg "<@U1> list"),
        .MessageEvent (msg "<@U1> complete"), .InvalidAuthEvent] ())).posts.map Prod.fst)
      = [1] := by
  refine ⟨by decide, by decide, fun more => ?_⟩
  rw [run_append, run_halted _ _ _ (by decide)]
  decide

/-- C9, amended. In every state the process can reach, under any schedule: the
posts made so far answer, in order, the first of the handled commands classified
so far, each at most once; each classified command is the message event at its
position of the event stream, and each post goes, as the bot user, to the
channel of the classified command at its position; so the reply to a command is posted before the
reply to a later one, and whenever a reply has been posted the replies to all
earlier handled commands have been posted too. Once the event stream is used up
and all three goroutines wait at their receives, with the process still running,
every classified handled command has been answered by exactly one post. From
every such state some schedule leads to that rest, or to the end of the process
(`main` returning on invalid-auth, a failed send or lookup, or a panic). -/
theorem posts_follow_classification {σ : Type} (X : External σ)
    (events : List InboundEvent) (w : σ) (schedule : List Goroutine) (s : Sys σ)
    (hs : s = run X schedule (Sys.init events w)) :
    (s.posts.map Prod.fst) <+: validClassified s ∧
    (validClassified s).Pairwise (· < ·) ∧
    (s.posts.map Prod.fst).Pairwise (· < ·) ∧
    (∀ p ∈ s.classified, events[p.1]? = some (.MessageEvent p.2.Event)) ∧
    (∀ p ∈ s.posts, ∃ bc ch, (p.1, bc) ∈ s.classified ∧ bc.Channel = some ch ∧
      p.2.channel = ch.Name ∧ p.2.params.AsUser = true) ∧
    (∀ i1 i2, i1 ∈ validClassified s → i2 ∈ s.posts.map Prod.fst → i1 < i2 →
      i1 ∈ s.posts.map Prod.fst) ∧
    (s.halted = none → quiescent s = true → s.posts.map Prod.fst = validClassified s) ∧
    (∃ more, (run X (schedule ++ more) (Sys.init events w)).halted.isSome = true ∨
      quiescent (run X (schedule ++ more) (Sys.init events w)) = true) := by
  have hpipe : PipelineInv s := hs ▸ pipelineInv_run X schedule _ (pipelineInv_init events w)
  have hpos : PositionInv events s :=
    hs ▸ positionInv_run X events schedule _ (positionInv_init events w)
  have horig : OriginInv s := hs ▸ originInv_run X schedule _ (originInv_init events w)
  obtain ⟨tail, h1, h2⟩ := hpipe
  obtain ⟨p1, _, _, p4⟩ := hpos
  have hsorted := validClassified_pairwise s p1
  have hsplit := hsorted
  rw [h1, List.pairwise_append] at hsplit
  refine ⟨⟨tail, h1.symm⟩, hsorted, hsplit.1, p4, horig.2.2.2.2, ?_, ?_, ?_⟩
  · intro i1 i2 hi1 hi2 hlt
    rw [h1, List.mem_append] at hi1
    rcases hi1 with hi1 | hi1
    · exact hi1
    · exact absurd (hsplit.2.2 i2 hi2 i1 hi1) (by omega)
  · intro hh hq
    have ht := h2 hh
    simp only [quiescent, Bool.and_eq_true, decide_eq_true_eq] at hq
    obtain ⟨⟨⟨_, hm⟩, hr⟩, hp⟩ := hq
    have : inFlight s = [] := by simp [inFlight, hm, hr, hp]
    rw [h1, ht, this, List.append_nil]
  · obtain ⟨more, hmore⟩ := reaches_rest X (work s) s (le_refl _)
    exact ⟨more, by rw [run_append, ← hs]; exact hmore⟩

/-- For bot `U1` and the events connected, `<@U1> list`, `<@U1> frobnicate`,
`<@U1> complete`: a schedule that brings the process to rest, where the posts
are those for the events at positions 1 and 3, in that order, with the bodies
the actions returned. -/
theorem posts_follow_classification_witness :
    (run demoExternal
      [.main, .main, .main, .router, .main, .router, .publisher, .main, .router, .main,
       .main, .router, .router, .publisher]
      (Sys.init [.ConnectedEvent "U1", .MessageEvent (msg "<@U1> list"),
        .MessageEvent (msg "<@U1> frobnicate"), .MessageEvent (msg "<@U1> complete")] ())).posts
      = [(1, ⟨"general", "", ⟨true, [⟨"#00FF00", "Shopping list", []⟩]⟩⟩),
         (3, ⟨"general", "", ⟨true, [⟨"#00FF00", "Completed", []⟩]⟩⟩)] ∧
    (run demoExternal
      [.main, .main, .main, .router, .main, .router, .publisher, .main, .router, .main,
       .main, .router, .router, .publisher]
      (Sys.init [.ConnectedEvent "U1", .MessageEvent (msg "<@U1> list"),
        .MessageEvent (msg "<@U1> frobnicate"), .MessageEvent (msg "<@U1> complete")] ())).posts.map
        Prod.fst
      = validClassified (run demoExternal
      [.main, .main, .main, .router, .main, .router, .publisher, .main, .router, .main,
       .main, .router, .router, .publisher]
      (Sys.init [.ConnectedEvent "U1", .MessageEvent (msg "<@U1> list"),
        .MessageEvent (msg "<@U1> frobnicate"), .MessageEvent (msg "<@U1> complete")] ())) :=
  ⟨by decide,
   (posts_follow_classification demoExternal
      [.ConnectedEvent "U1", .MessageEvent (msg "<@U1> list"),
        .MessageEvent (msg "<@U1> frobnicate"), .MessageEvent (msg "<@U1> complete")] ()
      [.main, .main, .main, .router, .main, .router, .publisher, .main, .router, .main,
       .main, .router, .router, .publisher] _ rfl).2.2.2.2.2.2.1 (by decide) (by decide)⟩


end HomeBot
